import Mathlib

/-!
# Verification of the `necs` entity-component registry

A shallow embedding of `src/lib.rs`: an in-memory entity-component registry
with type-erased per-type component pools.

Modelling conventions:
* `Entity` (Rust `u64`) is a `Nat`; the `next` id counter is incremented with
  an overflow check, matching Rust's checked arithmetic on the `u64` counter
  (overflow is a panic, modelled as the `.overflow` outcome).
* `std::any::TypeId` becomes `ComponentId := Nat`; component payloads are
  opaque `Nat` values.  A pool (`Box<dyn ComponentStorage>` holding a
  `HashMap<Entity, T>`) is a `Storage`: the table together with the `TypeId`
  of its element type, so the `downcast_ref`/`downcast_mut` calls of the
  source become an explicit comparison of the stored element type with the
  requested one, and a failed downcast is an explicit `.downcastFail`
  outcome rather than silently impossible.
* `HashMap`/`HashSet` are association lists / lists, with lookup, overwrite
  insertion, and removal of a key; iteration order of a hash table is
  unspecified in Rust, and no claim depends on order.
* Every fallible registry operation returns `Except PanicKind _`; the
  `.unwrap()` calls of the source are the `.error` branches.
-/

/-- Lookup in an association list (models `HashMap::get`). -/
def alookup {α β : Type} [DecidableEq α] : List (α × β) → α → Option β
  | [], _ => none
  | (k, v) :: rest, a => if k = a then some v else alookup rest a

/-- Remove a key from an association list (models `HashMap::remove`). -/
def aremove {α β : Type} [DecidableEq α] : List (α × β) → α → List (α × β)
  | [], _ => []
  | (k, v) :: rest, a => if k = a then aremove rest a else (k, v) :: aremove rest a

/-- Insert/overwrite a key in an association list (models `HashMap::insert`). -/
def ainsert {α β : Type} [DecidableEq α] (l : List (α × β)) (a : α) (b : β) : List (α × β) :=
  (a, b) :: aremove l a

@[simp] theorem alookup_nil {α β : Type} [DecidableEq α] (a : α) :
    alookup ([] : List (α × β)) a = none := rfl

@[simp] theorem alookup_cons {α β : Type} [DecidableEq α] (k a : α) (v : β) (l : List (α × β)) :
    alookup ((k, v) :: l) a = if k = a then some v else alookup l a := rfl

@[simp] theorem aremove_nil {α β : Type} [DecidableEq α] (a : α) :
    aremove ([] : List (α × β)) a = [] := rfl

@[simp] theorem aremove_cons {α β : Type} [DecidableEq α] (k : α) (v : β) (rest : List (α × β))
    (a : α) :
    aremove ((k, v) :: rest) a =
      if k = a then aremove rest a else (k, v) :: aremove rest a := rfl

@[simp] theorem alookup_aremove_self {α β : Type} [DecidableEq α] (l : List (α × β)) (a : α) :
    alookup (aremove l a) a = none := by
  induction l with
  | nil => rfl
  | cons p rest ih =>
    obtain ⟨k, v⟩ := p
    by_cases h : k = a <;> simp [h, ih]

@[simp] theorem alookup_aremove_ne {α β : Type} [DecidableEq α] (l : List (α × β)) (a a' : α)
    (h : a' ≠ a) : alookup (aremove l a) a' = alookup l a' := by
  induction l with
  | nil => rfl
  | cons p rest ih =>
    obtain ⟨k, v⟩ := p
    by_cases hk : k = a
    · subst hk
      simp [Ne.symm h, ih]
    · simp [hk, ih]

@[simp] theorem alookup_ainsert_self {α β : Type} [DecidableEq α] (l : List (α × β)) (a : α)
    (b : β) : alookup (ainsert l a b) a = some b := by
  simp [ainsert]

@[simp] theorem alookup_ainsert_ne {α β : Type} [DecidableEq α] (l : List (α × β)) (a a' : α)
    (b : β) (h : a' ≠ a) : alookup (ainsert l a b) a' = alookup l a' := by
  simp [ainsert, Ne.symm h, alookup_aremove_ne l a a' h]

/-- A lookup that misses means no entry carries that key. -/
theorem alookup_eq_none_iff {α β : Type} [DecidableEq α] (l : List (α × β)) (a : α) :
    alookup l a = none ↔ ∀ p ∈ l, p.1 ≠ a := by
  induction l with
  | nil => simp
  | cons p rest ih =>
    obtain ⟨k, v⟩ := p
    by_cases h : k = a <;> simp [h, ih]

theorem alookup_mem {α β : Type} [DecidableEq α] {l : List (α × β)} {a : α} {b : β}
    (h : alookup l a = some b) : (a, b) ∈ l := by
  induction l with
  | nil => simp at h
  | cons p rest ih =>
    obtain ⟨k, v⟩ := p
    by_cases hk : k = a
    · subst hk
      simp at h
      simp [h]
    · simp [hk] at h
      exact List.mem_cons_of_mem _ (ih h)

theorem aremove_eq_self {α β : Type} [DecidableEq α] {l : List (α × β)} {a : α}
    (h : alookup l a = none) : aremove l a = l := by
  induction l with
  | nil => rfl
  | cons p rest ih =>
    obtain ⟨k, v⟩ := p
    by_cases hk : k = a
    · simp [hk] at h
    · simp [hk] at h ⊢
      exact ih h

/-- If removing key `a` empties the table, every other lookup already missed. -/
theorem alookup_eq_none_of_aremove_eq_nil {α β : Type} [DecidableEq α] {l : List (α × β)}
    {a a' : α} (h : aremove l a = []) (hne : a' ≠ a) : alookup l a' = none := by
  have := alookup_aremove_ne l a a' hne
  rw [h] at this
  exact this.symm

/-- A nonempty table has a key that looks up. -/
theorem exists_alookup_isSome_of_ne_nil {α β : Type} [DecidableEq α] {l : List (α × β)}
    (h : l ≠ []) : ∃ a, (alookup l a).isSome = true := by
  cases l with
  | nil => exact absurd rfl h
  | cons p rest =>
    refine ⟨p.1, ?_⟩
    obtain ⟨k, v⟩ := p
    simp

theorem aremove_ne_nil_of_alookup {α β : Type} [DecidableEq α] {l : List (α × β)} {a a' : α}
    (h : (alookup l a').isSome = true) (hne : a' ≠ a) : aremove l a ≠ [] := by
  intro hnil
  rw [alookup_eq_none_of_aremove_eq_nil hnil hne] at h
  simp at h

/-! ## The data model (`src/lib.rs` lines 12-74) -/

/-- `type Entity = u64;` -/
abbrev Entity := Nat

/-- `const NULL_ENTITY: Entity = 0;` -/
def NULL_ENTITY : Entity := 0

/-- `type ComponentId = TypeId;` — a stable per-type identifier. -/
abbrev ComponentId := Nat

/-- The number of values of `u64`: the `next` counter lives below this bound. -/
def u64Size : Nat := 2 ^ 64

/-- The panic classes of the source: a failed `downcast_ref`/`downcast_mut`
(`.unwrap()` on the `Any` cast), an `.unwrap()` on a missing pool in
`destroy`/`remove`, and overflow of the `next: u64` counter. -/
inductive PanicKind where
  | downcastFail
  | poolMissing
  | overflow
deriving DecidableEq

/-- A type-erased component pool: `Box<dyn ComponentStorage>` whose concrete
type is `HashMap<Entity, T>`.  `elemTy` records the `TypeId` of `T`, used by
the modelled downcasts; `table` is the map itself, with opaque payloads. -/
structure Storage where
  elemTy : ComponentId
  table : List (Entity × Nat)
deriving DecidableEq

/-- `pub struct Registry` (lines 69-74): the next-id counter, the Entity
Table mapping entity → set of owned component types, and the Component Pool
Directory mapping component type → type-erased pool.  (The `observer` field
is a zero-sized marker and carries no state.) -/
structure Registry where
  next : Nat
  entities : List (Entity × List ComponentId)
  component_pool : List (ComponentId × Storage)
deriving DecidableEq

namespace Registry

/-- `Registry::new` (lines 77-79). -/
def new : Registry := { next := 1, entities := [], component_pool := [] }

/-- `Registry::create` (lines 81-86): issue `next`, bump the counter
(checked `u64` arithmetic), insert an empty record. -/
def create (s : Registry) : Except PanicKind (Entity × Registry) :=
  let entity := s.next
  if s.next + 1 < u64Size then
    .ok (entity, { s with
      next := s.next + 1,
      entities := ainsert s.entities entity [] })
  else
    .error .overflow

/-- The loop body of `Registry::destroy` (lines 93-100): for each component
id of the destroyed entity's record, look up its pool (`.unwrap()`), remove
the entity from it, and drop the pool if it became empty. -/
def destroyPools (e : Entity) :
    List ComponentId → List (ComponentId × Storage) →
      Except PanicKind (List (ComponentId × Storage))
  | [], pools => .ok pools
  | cid :: rest, pools =>
    match alookup pools cid with
    | none => .error .poolMissing
    | some st =>
      let st' : Storage := { elemTy := st.elemTy, table := aremove st.table e }
      let pools' := if st'.table.isEmpty then aremove pools cid else ainsert pools cid st'
      destroyPools e rest pools'

/-- `Registry::destroy` (lines 92-103). -/
def destroy (e : Entity) (s : Registry) : Except PanicKind Registry :=
  match alookup s.entities e with
  | some cids =>
    (destroyPools e cids s.component_pool).map (fun pools =>
      { s with component_pool := pools, entities := aremove s.entities e })
  | none => .ok { s with entities := aremove s.entities e }

/-- `Registry::add` (lines 105-121): only if the entity exists and its record
did not yet contain the component type, record the type and insert the value
into the pool — an occupied directory entry is downcast (`.unwrap()`), a
vacant one gets a fresh singleton pool. -/
def add (C : ComponentId) (e : Entity) (v : Nat) (s : Registry) :
    Except PanicKind Registry :=
  match alookup s.entities e with
  | none => .ok s
  | some cids =>
    if C ∈ cids then .ok s
    else
      let entities' := ainsert s.entities e (C :: cids)
      match alookup s.component_pool C with
      | some st =>
        if st.elemTy = C then
          .ok { s with
            entities := entities',
            component_pool :=
              ainsert s.component_pool C
                { elemTy := st.elemTy, table := ainsert st.table e v } }
        else .error .downcastFail
      | none =>
        .ok { s with
          entities := entities',
          component_pool := ainsert s.component_pool C { elemTy := C, table := [(e, v)] } }

/-- `Registry::remove` (lines 123-133): only if the entity exists and its
record contained the type, erase the type from the record, look up the pool
(`.unwrap()`), remove the entity from it, and drop the pool if now empty. -/
def remove (C : ComponentId) (e : Entity) (s : Registry) : Except PanicKind Registry :=
  match alookup s.entities e with
  | none => .ok s
  | some cids =>
    if C ∈ cids then
      let entities' := ainsert s.entities e (cids.filter (fun c => decide (c ≠ C)))
      match alookup s.component_pool C with
      | none => .error .poolMissing
      | some st =>
        let st' : Storage := { elemTy := st.elemTy, table := aremove st.table e }
        let pools' :=
          if st'.table.isEmpty then aremove s.component_pool C
          else ainsert s.component_pool C st'
        .ok { s with entities := entities', component_pool := pools' }
    else .ok s

/-- `Registry::patch` (lines 139-145) composed with `Patch::with`
(lines 177-185): locate the component (`downcast_mut().unwrap()` on the pool
when the directory has one, then a table lookup), and apply the mutation
function to the stored value if and only if it is present. -/
def patch_with (C : ComponentId) (e : Entity) (f : Nat → Nat) (s : Registry) :
    Except PanicKind Registry :=
  match alookup s.component_pool C with
  | none => .ok s
  | some st =>
    if st.elemTy = C then
      match alookup st.table e with
      | none => .ok s
      | some v =>
        .ok { s with
          component_pool :=
            ainsert s.component_pool C
              { elemTy := st.elemTy, table := ainsert st.table e (f v) } }
    else .error .downcastFail

/-- `Registry::replace` (lines 135-137): defined through the patch
mechanism, overwriting the whole value. -/
def replace (C : ComponentId) (e : Entity) (v : Nat) (s : Registry) :
    Except PanicKind Registry :=
  patch_with C e (fun _ => v) s

/-- `Registry::get` restricted to the directory (lines 147-152):
`component_pool.get` then `downcast_ref().unwrap()` then a table lookup. -/
def getPool (pools : List (ComponentId × Storage)) (C : ComponentId) (e : Entity) :
    Except PanicKind (Option Nat) :=
  match alookup pools C with
  | none => .ok none
  | some st => if st.elemTy = C then .ok (alookup st.table e) else .error .downcastFail

/-- `Registry::get` (lines 147-152). -/
def get (C : ComponentId) (e : Entity) (s : Registry) : Except PanicKind (Option Nat) :=
  getPool s.component_pool C e

/-- `Registry::exists` (lines 162-164). -/
def exists_ (e : Entity) (s : Registry) : Bool :=
  (alookup s.entities e).isSome

/-- The `add` calls of `ComponentTuple::create_entity_with` (lines 204-210),
one per supplied component, in argument order. -/
def addAll (e : Entity) : List (ComponentId × Nat) → Registry → Except PanicKind Registry
  | [], s => .ok s
  | (C, v) :: rest, s => (add C e v s).bind (addAll e rest)

/-- `Registry::create_with` (lines 88-90) via `impl_component_tuple`
(lines 199-225): create an entity, then add each supplied component in
argument order, returning the entity. -/
def create_with (cs : List (ComponentId × Nat)) (s : Registry) :
    Except PanicKind (Entity × Registry) :=
  (create s).bind (fun p => (addAll p.1 cs p.2).map (fun s2 => (p.1, s2)))

/-- `Registry::get_all` (lines 154-156) via `ComponentSet::get_components`
(lines 242-248): one independent `get` per requested type, in order. -/
def get_all (Cs : List ComponentId) (e : Entity) (s : Registry) :
    Except PanicKind (List (Option Nat)) :=
  match Cs with
  | [] => .ok []
  | C :: rest => (get C e s).bind (fun o => (get_all rest e s).map (fun os => o :: os))

end Registry

/-- The pool resolution of `ComponentSet::view_entities` (lines 253-255):
`component_pool.get(..).and_then(|p| p.as_any().downcast_ref::<..>())` — a
failed downcast here is folded into `None`, not unwrapped. -/
def downcastPool (s : Registry) (C : ComponentId) : Option Storage :=
  (alookup s.component_pool C).bind (fun st => if st.elemTy = C then some st else none)

/-- The loop body of `ComponentSet::view_entities` (lines 267-279): fetch the
entity from every requested pool and keep the row only when every component
is present. -/
def viewRow (s : Registry) (Cs : List ComponentId) (e : Entity) : Option (List Nat) :=
  let comps := Cs.map (fun C => (downcastPool s C).bind (fun st => alookup st.table e))
  if comps.all Option.isSome then some (comps.filterMap id) else none

/-- `ComponentSet::view_entities` (lines 250-282), `Registry::view`
(lines 158-160): resolve each requested pool; if any is missing, return the
empty result; otherwise drive the enumeration from the first pool's key set
and keep exactly the entities present in every requested pool. -/
def Registry.view_entities (Cs : List ComponentId) (s : Registry) :
    List (Entity × List Nat) :=
  if (Cs.map (downcastPool s)).any Option.isNone then []
  else
    match Cs with
    | [] => []
    | C0 :: _ =>
      match downcastPool s C0 with
      | none => []
      | some st0 =>
        st0.table.filterMap (fun p => (viewRow s Cs p.1).map (fun comps => (p.1, comps)))

/-! ## The public operation language and reachability -/

/-- One call of the public registry surface. -/
inductive Op where
  | create
  | createWith (cs : List (ComponentId × Nat))
  | destroy (e : Entity)
  | add (C : ComponentId) (e : Entity) (v : Nat)
  | remove (C : ComponentId) (e : Entity)
  | replace (C : ComponentId) (e : Entity) (v : Nat)
  | patch (C : ComponentId) (e : Entity) (f : Nat → Nat)
  | get (C : ComponentId) (e : Entity)
  | getAll (Cs : List ComponentId) (e : Entity)
  | view (Cs : List ComponentId)

/-- The state transition of one public call (read-only calls keep the state
but still surface their panics). -/
def Registry.step (op : Op) (s : Registry) : Except PanicKind Registry :=
  match op with
  | .create => (Registry.create s).map Prod.snd
  | .createWith cs => (Registry.create_with cs s).map Prod.snd
  | .destroy e => Registry.destroy e s
  | .add C e v => Registry.add C e v s
  | .remove C e => Registry.remove C e s
  | .replace C e v => Registry.replace C e v s
  | .patch C e f => Registry.patch_with C e f s
  | .get C e => (Registry.get C e s).map (fun _ => s)
  | .getAll Cs e => (Registry.get_all Cs e s).map (fun _ => s)
  | .view _ => .ok s

/-- Run a sequence of public calls. -/
def runOps : List Op → Registry → Except PanicKind Registry
  | [], s => .ok s
  | op :: rest, s => (Registry.step op s).bind (runOps rest)

/-- A registry state an actual program can be in: the result of some
sequence of public calls on a fresh registry. -/
def Reachable (s : Registry) : Prop :=
  ∃ ops, runOps ops Registry.new = .ok s

/-! ## The registry invariants -/

/-- Directory keying: every pool in the directory is keyed by the `TypeId`
of its element type, so the modelled downcasts succeed. -/
def WellTyped (s : Registry) : Prop :=
  ∀ C st, alookup s.component_pool C = some st → st.elemTy = C

/-- Record-to-pool direction: every component type of an entity's record has
a pool with an entry for that entity. -/
def RecordInPool (s : Registry) : Prop :=
  ∀ e cids C, alookup s.entities e = some cids → C ∈ cids →
    ∃ st, alookup s.component_pool C = some st ∧ (alookup st.table e).isSome = true

/-- Pool-to-record direction: every pool entry belongs to a live entity
whose record contains the pool's component type. -/
def PoolInRecord (s : Registry) : Prop :=
  ∀ C st e, alookup s.component_pool C = some st → (alookup st.table e).isSome = true →
    ∃ cids, alookup s.entities e = some cids ∧ C ∈ cids

/-- No dangling empty pools in the directory. -/
def PoolsNonempty (s : Registry) : Prop :=
  ∀ C st, alookup s.component_pool C = some st → st.table ≠ []

/-- The id counter stays positive and every live entity id is a previously
issued one: nonzero and below the counter. -/
def IdsFresh (s : Registry) : Prop :=
  1 ≤ s.next ∧ ∀ e, (alookup s.entities e).isSome = true → 1 ≤ e ∧ e < s.next

/-- Records model `HashSet`s: no duplicate component types. -/
def RecordsNodup (s : Registry) : Prop :=
  ∀ e cids, alookup s.entities e = some cids → cids.Nodup

/-- The conjunction of the registry's internal invariants, preserved by
every public operation. -/
structure RegInv (s : Registry) : Prop where
  wt : WellTyped s
  rip : RecordInPool s
  pir : PoolInRecord s
  npe : PoolsNonempty s
  fresh : IdsFresh s
  nodup : RecordsNodup s

theorem inv_new : RegInv Registry.new := by
  refine ⟨?_, ?_, ?_, ?_, ⟨le_refl 1, ?_⟩, ?_⟩ <;>
    simp [WellTyped, RecordInPool, PoolInRecord, PoolsNonempty, RecordsNodup, Registry.new]

theorem create_inv {s : Registry} (h : RegInv s) :
    (∃ e s', Registry.create s = .ok (e, s') ∧ RegInv s') ∨
      Registry.create s = .error .overflow := by
  by_cases hov : s.next + 1 < u64Size
  · left
    refine ⟨s.next, { s with next := s.next + 1, entities := ainsert s.entities s.next [] },
      by simp [Registry.create, hov], ?_⟩
    constructor
    · exact h.wt
    · intro e cids C he hC
      by_cases hee : e = s.next
      · subst hee
        rw [alookup_ainsert_self] at he
        cases he
        simp at hC
      · rw [alookup_ainsert_ne _ _ _ _ hee] at he
        exact h.rip e cids C he hC
    · intro C st e hp hent
      obtain ⟨cids, hcid, hC⟩ := h.pir C st e hp hent
      have hee : e ≠ s.next := by
        intro heq
        have hlt := (h.fresh.2 e (by simp [hcid])).2
        rw [heq] at hlt
        exact lt_irrefl _ hlt
      exact ⟨cids, by rw [alookup_ainsert_ne _ _ _ _ hee]; exact hcid, hC⟩
    · exact h.npe
    · refine ⟨Nat.le_succ_of_le h.fresh.1, ?_⟩
      intro e hent
      by_cases hee : e = s.next
      · subst hee
        exact ⟨h.fresh.1, Nat.lt_succ_self _⟩
      · rw [alookup_ainsert_ne _ _ _ _ hee] at hent
        obtain ⟨h1, h2⟩ := h.fresh.2 e hent
        exact ⟨h1, Nat.lt_succ_of_lt h2⟩
    · intro e cids he
      by_cases hee : e = s.next
      · subst hee
        rw [alookup_ainsert_self] at he
        cases he
        exact List.nodup_nil
      · rw [alookup_ainsert_ne _ _ _ _ hee] at he
        exact h.nodup e cids he
  · right
    simp [Registry.create, hov]

theorem option_some_inj_alookup {α β : Type} [DecidableEq α] {l : List (α × β)} {a : α}
    {b b' : β} (h1 : alookup l a = some b) (h2 : alookup l a = some b') : b = b' := by
  rw [h1] at h2
  exact Option.some.inj h2

theorem add_inv {s : Registry} (h : RegInv s) (C : ComponentId) (e : Entity) (v : Nat) :
    ∃ s', Registry.add C e v s = .ok s' ∧ RegInv s' := by
  cases he : alookup s.entities e with
  | none => exact ⟨s, by simp [Registry.add, he], h⟩
  | some cids =>
    by_cases hC : C ∈ cids
    · exact ⟨s, by simp [Registry.add, he, hC], h⟩
    · have hrec : ∀ e' cids', e' ≠ e →
          alookup (ainsert s.entities e (C :: cids)) e' = some cids' →
          alookup s.entities e' = some cids' := by
        intro e' cids' hne h'
        rwa [alookup_ainsert_ne _ _ _ _ hne] at h'
      cases hp : alookup s.component_pool C with
      | none =>
        refine ⟨{ s with
            entities := ainsert s.entities e (C :: cids),
            component_pool :=
              ainsert s.component_pool C { elemTy := C, table := [(e, v)] } },
          by simp [Registry.add, he, hC, hp], ?_⟩
        constructor
        · intro C' st' hp'
          by_cases hCC : C' = C
          · subst hCC
            rw [alookup_ainsert_self] at hp'
            cases hp'
            rfl
          · rw [alookup_ainsert_ne _ _ _ _ hCC] at hp'
            exact h.wt C' st' hp'
        · intro e' cids' C' he' hC'
          by_cases hee : e' = e
          · subst hee
            rw [alookup_ainsert_self] at he'
            cases he'
            rcases List.mem_cons.1 hC' with hCC | hCC
            · subst hCC
              exact ⟨{ elemTy := C', table := [(e', v)] }, by simp, by simp [alookup]⟩
            · obtain ⟨st, hpold, hent⟩ := h.rip e' cids C' he hCC
              have hne : C' ≠ C := by
                intro hcc
                rw [hcc, hp] at hpold
                cases hpold
              exact ⟨st, by rw [alookup_ainsert_ne _ _ _ _ hne]; exact hpold, hent⟩
          · obtain ⟨st, hpold, hent⟩ := h.rip e' cids' C' (hrec e' cids' hee he') hC'
            have hne : C' ≠ C := by
              intro hcc
              rw [hcc, hp] at hpold
              cases hpold
            exact ⟨st, by rw [alookup_ainsert_ne _ _ _ _ hne]; exact hpold, hent⟩
        · intro C' st' e'' hp' hent
          by_cases hCC : C' = C
          · subst hCC
            rw [alookup_ainsert_self] at hp'
            cases hp'
            simp only [alookup] at hent
            by_cases hee : e = e''
            · subst hee
              exact ⟨C' :: cids, by rw [alookup_ainsert_self], List.mem_cons_self _ _⟩
            · rw [if_neg hee] at hent
              simp at hent
          · rw [alookup_ainsert_ne _ _ _ _ hCC] at hp'
            obtain ⟨cids'', hent'', hC''⟩ := h.pir C' st' e'' hp' hent
            by_cases hee : e'' = e
            · subst hee
              have : cids'' = cids := option_some_inj_alookup hent'' he
              subst this
              exact ⟨C :: cids'', by rw [alookup_ainsert_self], List.mem_cons_of_mem _ hC''⟩
            · exact ⟨cids'', by rw [alookup_ainsert_ne _ _ _ _ hee]; exact hent'', hC''⟩
        · intro C' st' hp'
          by_cases hCC : C' = C
          · subst hCC
            rw [alookup_ainsert_self] at hp'
            cases hp'
            simp
          · rw [alookup_ainsert_ne _ _ _ _ hCC] at hp'
            exact h.npe C' st' hp'
        · refine ⟨h.fresh.1, ?_⟩
          intro e' hent
          by_cases hee : e' = e
          · subst hee
            exact h.fresh.2 e' (by simp [he])
          · rw [alookup_ainsert_ne _ _ _ _ hee] at hent
            exact h.fresh.2 e' hent
        · intro e' cids' he'
          by_cases hee : e' = e
          · subst hee
            rw [alookup_ainsert_self] at he'
            cases he'
            exact List.nodup_cons.2 ⟨hC, h.nodup e' cids he⟩
          · rw [alookup_ainsert_ne _ _ _ _ hee] at he'
            exact h.nodup e' cids' he'
      | some st =>
        have hty : st.elemTy = C := h.wt C st hp
        refine ⟨{ s with
            entities := ainsert s.entities e (C :: cids),
            component_pool :=
              ainsert s.component_pool C
                { elemTy := st.elemTy, table := ainsert st.table e v } },
          by simp [Registry.add, he, hC, hp, hty], ?_⟩
        constructor
        · intro C' st' hp'
          by_cases hCC : C' = C
          · subst hCC
            rw [alookup_ainsert_self] at hp'
            cases hp'
            exact hty
          · rw [alookup_ainsert_ne _ _ _ _ hCC] at hp'
            exact h.wt C' st' hp'
        · intro e' cids' C' he' hC'
          by_cases hCC : C' = C
          · subst hCC
            refine ⟨{ elemTy := st.elemTy, table := ainsert st.table e v },
              by rw [alookup_ainsert_self], ?_⟩
            by_cases hee : e' = e
            · subst hee
              simp
            · rw [alookup_ainsert_ne _ _ _ _ hee]
              have he'' : alookup s.entities e' = some cids' := by
                rwa [alookup_ainsert_ne _ _ _ _ hee] at he'
              obtain ⟨st'', hpold, hent⟩ := h.rip e' cids' C' he'' hC'
              have : st'' = st := option_some_inj_alookup hpold hp
              subst this
              exact hent
          · have hrip : ∃ st'', alookup s.component_pool C' = some st'' ∧
                (alookup st''.table e').isSome = true := by
              by_cases hee : e' = e
              · subst hee
                rw [alookup_ainsert_self] at he'
                cases he'
                rcases List.mem_cons.1 hC' with h1 | h1
                · exact absurd h1 hCC
                · exact h.rip e' cids C' he h1
              · have hh : alookup s.entities e' = some cids' := by
                  rwa [alookup_ainsert_ne _ _ _ _ hee] at he'
                exact h.rip e' cids' C' hh hC'
            obtain ⟨st'', hpold, hent⟩ := hrip
            exact ⟨st'', by rw [alookup_ainsert_ne _ _ _ _ hCC]; exact hpold, hent⟩
        · intro C' st' e'' hp' hent
          by_cases hCC : C' = C
          · subst hCC
            rw [alookup_ainsert_self] at hp'
            cases hp'
            by_cases hee : e'' = e
            · subst hee
              exact ⟨C' :: cids, by rw [alookup_ainsert_self], List.mem_cons_self _ _⟩
            · simp only at hent
              rw [alookup_ainsert_ne _ _ _ _ hee] at hent
              obtain ⟨cids'', hrecold, hmem⟩ := h.pir C' st e'' hp hent
              exact ⟨cids'', by rw [alookup_ainsert_ne _ _ _ _ hee]; exact hrecold, hmem⟩
          · rw [alookup_ainsert_ne _ _ _ _ hCC] at hp'
            obtain ⟨cids'', hrecold, hmem⟩ := h.pir C' st' e'' hp' hent
            by_cases hee : e'' = e
            · subst hee
              have : cids'' = cids := option_some_inj_alookup hrecold he
              subst this
              exact ⟨C :: cids'', by rw [alookup_ainsert_self], List.mem_cons_of_mem _ hmem⟩
            · exact ⟨cids'', by rw [alookup_ainsert_ne _ _ _ _ hee]; exact hrecold, hmem⟩
        · intro C' st' hp'
          by_cases hCC : C' = C
          · subst hCC
            rw [alookup_ainsert_self] at hp'
            cases hp'
            simp [ainsert]
          · rw [alookup_ainsert_ne _ _ _ _ hCC] at hp'
            exact h.npe C' st' hp'
        · refine ⟨h.fresh.1, ?_⟩
          intro e' hent
          by_cases hee : e' = e
          · subst hee
            exact h.fresh.2 e' (by simp [he])
          · rw [alookup_ainsert_ne _ _ _ _ hee] at hent
            exact h.fresh.2 e' hent
        · intro e' cids' he'
          by_cases hee : e' = e
          · subst hee
            rw [alookup_ainsert_self] at he'
            cases he'
            exact List.nodup_cons.2 ⟨hC, h.nodup e' cids he⟩
          · rw [alookup_ainsert_ne _ _ _ _ hee] at he'
            exact h.nodup e' cids' he'

theorem remove_inv {s : Registry} (h : RegInv s) (C : ComponentId) (e : Entity) :
    ∃ s', Registry.remove C e s = .ok s' ∧ RegInv s' := by
  cases he : alookup s.entities e with
  | none => exact ⟨s, by simp [Registry.remove, he], h⟩
  | some cids =>
    by_cases hC : C ∈ cids
    · obtain ⟨st, hp, hent⟩ := h.rip e cids C he hC
      have hty : st.elemTy = C := h.wt C st hp
      by_cases hemp : (aremove st.table e).isEmpty = true
      · -- the pool became empty and is dropped from the directory
        have hnil : aremove st.table e = [] := List.isEmpty_iff.1 hemp
        refine ⟨{ s with
            entities := ainsert s.entities e (cids.filter (fun c => decide (c ≠ C))),
            component_pool := aremove s.component_pool C },
          by simp [Registry.remove, he, hC, hp, hemp], ?_⟩
        constructor
        · intro C' st' hp'
          by_cases hCC : C' = C
          · subst hCC
            rw [alookup_aremove_self] at hp'
            cases hp'
          · rw [alookup_aremove_ne _ _ _ hCC] at hp'
            exact h.wt C' st' hp'
        · intro e' cids' C' he' hC'
          by_cases hee : e' = e
          · subst hee
            rw [alookup_ainsert_self] at he'
            cases he'
            have hmem := List.mem_filter.1 hC'
            have hne : C' ≠ C := by simpa using hmem.2
            obtain ⟨st'', hpold, hent''⟩ := h.rip e' cids C' he hmem.1
            exact ⟨st'', by rw [alookup_aremove_ne _ _ _ hne]; exact hpold, hent''⟩
          · rw [alookup_ainsert_ne _ _ _ _ hee] at he'
            obtain ⟨st'', hpold, hent''⟩ := h.rip e' cids' C' he' hC'
            have hne : C' ≠ C := by
              intro hcc
              subst hcc
              have : st'' = st := option_some_inj_alookup hpold hp
              subst this
              exact aremove_ne_nil_of_alookup hent'' hee hnil
            exact ⟨st'', by rw [alookup_aremove_ne _ _ _ hne]; exact hpold, hent''⟩
        · intro C' st' e'' hp' hent'
          by_cases hCC : C' = C
          · subst hCC
            rw [alookup_aremove_self] at hp'
            cases hp'
          · rw [alookup_aremove_ne _ _ _ hCC] at hp'
            obtain ⟨cids'', hrec, hmem⟩ := h.pir C' st' e'' hp' hent'
            by_cases hee : e'' = e
            · subst hee
              have : cids'' = cids := option_some_inj_alookup hrec he
              subst this
              refine ⟨cids''.filter (fun c => decide (c ≠ C)),
                by rw [alookup_ainsert_self], ?_⟩
              exact List.mem_filter.2 ⟨hmem, by simpa using hCC⟩
            · exact ⟨cids'', by rw [alookup_ainsert_ne _ _ _ _ hee]; exact hrec, hmem⟩
        · intro C' st' hp'
          by_cases hCC : C' = C
          · subst hCC
            rw [alookup_aremove_self] at hp'
            cases hp'
          · rw [alookup_aremove_ne _ _ _ hCC] at hp'
            exact h.npe C' st' hp'
        · refine ⟨h.fresh.1, ?_⟩
          intro e' hent'
          by_cases hee : e' = e
          · subst hee
            exact h.fresh.2 e' (by simp [he])
          · rw [alookup_ainsert_ne _ _ _ _ hee] at hent'
            exact h.fresh.2 e' hent'
        · intro e' cids' he'
          by_cases hee : e' = e
          · subst hee
            rw [alookup_ainsert_self] at he'
            cases he'
            exact (h.nodup e' cids he).filter _
          · rw [alookup_ainsert_ne _ _ _ _ hee] at he'
            exact h.nodup e' cids' he'
      · -- the pool still has entries and stays, minus the removed entity
        have hne_nil : aremove st.table e ≠ [] := by
          intro hn
          rw [hn] at hemp
          simp at hemp
        refine ⟨{ s with
            entities := ainsert s.entities e (cids.filter (fun c => decide (c ≠ C))),
            component_pool :=
              ainsert s.component_pool C { elemTy := st.elemTy, table := aremove st.table e } },
          by simp [Registry.remove, he, hC, hp, hemp], ?_⟩
        constructor
        · intro C' st' hp'
          by_cases hCC : C' = C
          · subst hCC
            rw [alookup_ainsert_self] at hp'
            cases hp'
            exact hty
          · rw [alookup_ainsert_ne _ _ _ _ hCC] at hp'
            exact h.wt C' st' hp'
        · intro e' cids' C' he' hC'
          by_cases hee : e' = e
          · subst hee
            rw [alookup_ainsert_self] at he'
            cases he'
            have hmem := List.mem_filter.1 hC'
            have hne : C' ≠ C := by simpa using hmem.2
            obtain ⟨st'', hpold, hent''⟩ := h.rip e' cids C' he hmem.1
            exact ⟨st'', by rw [alookup_ainsert_ne _ _ _ _ hne]; exact hpold, hent''⟩
          · rw [alookup_ainsert_ne _ _ _ _ hee] at he'
            obtain ⟨st'', hpold, hent''⟩ := h.rip e' cids' C' he' hC'
            by_cases hCC : C' = C
            · subst hCC
              have : st'' = st := option_some_inj_alookup hpold hp
              subst this
              refine ⟨{ elemTy := st''.elemTy, table := aremove st''.table e },
                by rw [alookup_ainsert_self], ?_⟩
              simpa [alookup_aremove_ne _ _ _ hee] using hent''
            · exact ⟨st'', by rw [alookup_ainsert_ne _ _ _ _ hCC]; exact hpold, hent''⟩
        · intro C' st' e'' hp' hent'
          by_cases hCC : C' = C
          · subst hCC
            rw [alookup_ainsert_self] at hp'
            cases hp'
            by_cases hee : e'' = e
            · subst hee
              rw [alookup_aremove_self] at hent'
              simp at hent'
            · simp only [alookup_aremove_ne _ _ _ hee] at hent'
              obtain ⟨cids'', hrec, hmem⟩ := h.pir C' st e'' hp hent'
              exact ⟨cids'', by rw [alookup_ainsert_ne _ _ _ _ hee]; exact hrec, hmem⟩
          · rw [alookup_ainsert_ne _ _ _ _ hCC] at hp'
            obtain ⟨cids'', hrec, hmem⟩ := h.pir C' st' e'' hp' hent'
            by_cases hee : e'' = e
            · subst hee
              have : cids'' = cids := option_some_inj_alookup hrec he
              subst this
              refine ⟨cids''.filter (fun c => decide (c ≠ C)),
                by rw [alookup_ainsert_self], ?_⟩
              exact List.mem_filter.2 ⟨hmem, by simpa using hCC⟩
            · exact ⟨cids'', by rw [alookup_ainsert_ne _ _ _ _ hee]; exact hrec, hmem⟩
        · intro C' st' hp'
          by_cases hCC : C' = C
          · subst hCC
            rw [alookup_ainsert_self] at hp'
            cases hp'
            exact hne_nil
          · rw [alookup_ainsert_ne _ _ _ _ hCC] at hp'
            exact h.npe C' st' hp'
        · refine ⟨h.fresh.1, ?_⟩
          intro e' hent'
          by_cases hee : e' = e
          · subst hee
            exact h.fresh.2 e' (by simp [he])
          · rw [alookup_ainsert_ne _ _ _ _ hee] at hent'
            exact h.fresh.2 e' hent'
        · intro e' cids' he'
          by_cases hee : e' = e
          · subst hee
            rw [alookup_ainsert_self] at he'
            cases he'
            exact (h.nodup e' cids he).filter _
          · rw [alookup_ainsert_ne _ _ _ _ hee] at he'
            exact h.nodup e' cids' he'
    · exact ⟨s, by simp [Registry.remove, he, hC], h⟩

@[simp] theorem exceptBind_ok {ε α β : Type} (a : α) (f : α → Except ε β) :
    (Except.ok a : Except ε α).bind f = f a := rfl

@[simp] theorem exceptBind_error {ε α β : Type} (k : ε) (f : α → Except ε β) :
    (Except.error k : Except ε α).bind f = Except.error k := rfl

@[simp] theorem exceptSeqBind_ok {ε α β : Type} (a : α) (f : α → Except ε β) :
    ((Except.ok a : Except ε α) >>= f) = f a := rfl

@[simp] theorem exceptSeqBind_error {ε α β : Type} (k : ε) (f : α → Except ε β) :
    ((Except.error k : Except ε α) >>= f) = Except.error k := rfl

@[simp] theorem exceptMap_ok {ε α β : Type} (f : α → β) (a : α) :
    Except.map f (Except.ok a : Except ε α) = .ok (f a) := rfl

@[simp] theorem exceptMap_error {ε α β : Type} (f : α → β) (k : ε) :
    Except.map f (Except.error k : Except ε α) = .error k := rfl

theorem destroyPools_spec (e : Entity) :
    ∀ (cids : List ComponentId) (pools : List (ComponentId × Storage)),
      cids.Nodup →
      (∀ C ∈ cids, ∃ st, alookup pools C = some st) →
      ∃ pools', Registry.destroyPools e cids pools = .ok pools' ∧
        (∀ C st, C ∈ cids → alookup pools C = some st →
          alookup pools' C = (if (aremove st.table e).isEmpty then none
            else some { elemTy := st.elemTy, table := aremove st.table e })) ∧
        (∀ C, C ∉ cids → alookup pools' C = alookup pools C) := by
  intro cids
  induction cids with
  | nil =>
    intro pools _ _
    exact ⟨pools, rfl, by simp, fun C _ => rfl⟩
  | cons C0 rest ih =>
    intro pools hnd hav
    obtain ⟨st0, hp0⟩ := hav C0 (List.mem_cons_self _ _)
    have hnd' : rest.Nodup := (List.nodup_cons.1 hnd).2
    have hC0 : C0 ∉ rest := (List.nodup_cons.1 hnd).1
    set pools1 := if (aremove st0.table e).isEmpty then aremove pools C0
      else ainsert pools C0 { elemTy := st0.elemTy, table := aremove st0.table e } with hpools1
    have hstep : Registry.destroyPools e (C0 :: rest) pools =
        Registry.destroyPools e rest pools1 := by
      rw [Registry.destroyPools, hp0]
    have hpres : ∀ C, C ≠ C0 → alookup pools1 C = alookup pools C := by
      intro C hne
      rw [hpools1]
      by_cases hemp : (aremove st0.table e).isEmpty = true
      · simp [hemp, alookup_aremove_ne _ _ _ hne]
      · simp [hemp, alookup_ainsert_ne _ _ _ _ hne]
    have hav' : ∀ C ∈ rest, ∃ st, alookup pools1 C = some st := by
      intro C hmem
      have hne : C ≠ C0 := fun hcc => hC0 (hcc ▸ hmem)
      rw [hpres C hne]
      exact hav C (List.mem_cons_of_mem _ hmem)
    obtain ⟨pools', hrun, h1, h2⟩ := ih pools1 hnd' hav'
    refine ⟨pools', by rw [hstep]; exact hrun, ?_, ?_⟩
    · intro C st hmem hp
      rcases List.mem_cons.1 hmem with hcc | hcc
      · subst hcc
        have hst : st = st0 := option_some_inj_alookup hp hp0
        subst hst
        rw [h2 C hC0, hpools1]
        by_cases hemp : (aremove st.table e).isEmpty = true
        · simp [hemp]
        · simp [hemp]
      · have hne : C ≠ C0 := by
          intro hcc0
          rw [hcc0] at hcc
          exact hC0 hcc
        exact h1 C st hcc (by rw [hpres C hne]; exact hp)
    · intro C hnm
      have hne : C ≠ C0 := fun hcc => hnm (hcc ▸ List.mem_cons_self _ _)
      have hnr : C ∉ rest := fun hmm => hnm (List.mem_cons_of_mem _ hmm)
      rw [h2 C hnr, hpres C hne]

theorem destroy_inv {s : Registry} (h : RegInv s) (e : Entity) :
    ∃ s', Registry.destroy e s = .ok s' ∧ RegInv s' := by
  cases he : alookup s.entities e with
  | none =>
    refine ⟨{ s with entities := aremove s.entities e },
      by simp [Registry.destroy, he], ?_⟩
    constructor
    · exact h.wt
    · intro e' cids' C' he' hC'
      by_cases hee : e' = e
      · subst hee
        rw [alookup_aremove_self] at he'
        cases he'
      · rw [alookup_aremove_ne _ _ _ hee] at he'
        exact h.rip e' cids' C' he' hC'
    · intro C' st' e'' hp' hent'
      obtain ⟨cids'', hrec, hmem⟩ := h.pir C' st' e'' hp' hent'
      have hee : e'' ≠ e := by
        intro hcc
        rw [hcc, he] at hrec
        cases hrec
      exact ⟨cids'', by rw [alookup_aremove_ne _ _ _ hee]; exact hrec, hmem⟩
    · exact h.npe
    · refine ⟨h.fresh.1, ?_⟩
      intro e' hent'
      by_cases hee : e' = e
      · subst hee
        rw [alookup_aremove_self] at hent'
        simp at hent'
      · rw [alookup_aremove_ne _ _ _ hee] at hent'
        exact h.fresh.2 e' hent'
    · intro e' cids' he'
      by_cases hee : e' = e
      · subst hee
        rw [alookup_aremove_self] at he'
        cases he'
      · rw [alookup_aremove_ne _ _ _ hee] at he'
        exact h.nodup e' cids' he'
  | some cids =>
    have hav : ∀ C ∈ cids, ∃ st, alookup s.component_pool C = some st := by
      intro C hmem
      obtain ⟨st, hp, _⟩ := h.rip e cids C he hmem
      exact ⟨st, hp⟩
    obtain ⟨pools', hrun, h1, h2⟩ :=
      destroyPools_spec e cids s.component_pool (h.nodup e cids he) hav
    refine ⟨{ s with component_pool := pools', entities := aremove s.entities e },
      by simp [Registry.destroy, he, hrun], ?_⟩
    constructor
    · intro C' st' hp'
      by_cases hmem : C' ∈ cids
      · obtain ⟨st, hp⟩ := hav C' hmem
        rw [h1 C' st hmem hp] at hp'
        by_cases hemp : (aremove st.table e).isEmpty = true
        · rw [if_pos hemp] at hp'
          cases hp'
        · rw [if_neg hemp] at hp'
          cases hp'
          exact h.wt C' st hp
      · rw [h2 C' hmem] at hp'
        exact h.wt C' st' hp'
    · intro e' cids' C' he' hC'
      by_cases hee : e' = e
      · subst hee
        rw [alookup_aremove_self] at he'
        cases he'
      · rw [alookup_aremove_ne _ _ _ hee] at he'
        obtain ⟨st, hpold, hent⟩ := h.rip e' cids' C' he' hC'
        by_cases hmem : C' ∈ cids
        · have hemp : ¬ (aremove st.table e).isEmpty = true := by
            intro hemp
            exact aremove_ne_nil_of_alookup hent hee (List.isEmpty_iff.1 hemp)
          refine ⟨{ elemTy := st.elemTy, table := aremove st.table e }, ?_, ?_⟩
          · rw [h1 C' st hmem hpold, if_neg hemp]
          · simpa [alookup_aremove_ne _ _ _ hee] using hent
        · exact ⟨st, by rw [h2 C' hmem]; exact hpold, hent⟩
    · intro C' st' e'' hp' hent'
      by_cases hmem : C' ∈ cids
      · obtain ⟨st, hp⟩ := hav C' hmem
        rw [h1 C' st hmem hp] at hp'
        by_cases hemp : (aremove st.table e).isEmpty = true
        · rw [if_pos hemp] at hp'
          cases hp'
        · rw [if_neg hemp] at hp'
          cases hp'
          have hee : e'' ≠ e := by
            intro hcc
            rw [hcc] at hent'
            simp only [alookup_aremove_self] at hent'
            simp at hent'
          simp only [alookup_aremove_ne _ _ _ hee] at hent'
          obtain ⟨cids'', hrec, hmem'⟩ := h.pir C' st e'' hp hent'
          exact ⟨cids'', by rw [alookup_aremove_ne _ _ _ hee]; exact hrec, hmem'⟩
      · rw [h2 C' hmem] at hp'
        obtain ⟨cids'', hrec, hmem'⟩ := h.pir C' st' e'' hp' hent'
        have hee : e'' ≠ e := by
          intro hcc
          rw [hcc, he] at hrec
          cases hrec
          exact hmem hmem'
        exact ⟨cids'', by rw [alookup_aremove_ne _ _ _ hee]; exact hrec, hmem'⟩
    · intro C' st' hp'
      by_cases hmem : C' ∈ cids
      · obtain ⟨st, hp⟩ := hav C' hmem
        rw [h1 C' st hmem hp] at hp'
        by_cases hemp : (aremove st.table e).isEmpty = true
        · rw [if_pos hemp] at hp'
          cases hp'
        · rw [if_neg hemp] at hp'
          cases hp'
          show aremove st.table e ≠ []
          intro hn
          rw [hn] at hemp
          simp at hemp
      · rw [h2 C' hmem] at hp'
        exact h.npe C' st' hp'
    · refine ⟨h.fresh.1, ?_⟩
      intro e' hent'
      by_cases hee : e' = e
      · subst hee
        rw [alookup_aremove_self] at hent'
        simp at hent'
      · rw [alookup_aremove_ne _ _ _ hee] at hent'
        exact h.fresh.2 e' hent'
    · intro e' cids' he'
      by_cases hee : e' = e
      · subst hee
        rw [alookup_aremove_self] at he'
        cases he'
      · rw [alookup_aremove_ne _ _ _ hee] at he'
        exact h.nodup e' cids' he'

theorem patch_inv {s : Registry} (h : RegInv s) (C : ComponentId) (e : Entity)
    (f : Nat → Nat) :
    ∃ s', Registry.patch_with C e f s = .ok s' ∧ RegInv s' := by
  cases hp : alookup s.component_pool C with
  | none => exact ⟨s, by simp [Registry.patch_with, hp], h⟩
  | some st =>
    have hty : st.elemTy = C := h.wt C st hp
    cases hv : alookup st.table e with
    | none => exact ⟨s, by simp [Registry.patch_with, hp, hty, hv], h⟩
    | some v =>
      refine ⟨{ s with
          component_pool :=
            ainsert s.component_pool C
              { elemTy := st.elemTy, table := ainsert st.table e (f v) } },
        by simp [Registry.patch_with, hp, hty, hv], ?_⟩
      constructor
      · intro C' st' hp'
        by_cases hCC : C' = C
        · subst hCC
          rw [alookup_ainsert_self] at hp'
          cases hp'
          exact hty
        · rw [alookup_ainsert_ne _ _ _ _ hCC] at hp'
          exact h.wt C' st' hp'
      · intro e' cids' C' he' hC'
        obtain ⟨st'', hpold, hent⟩ := h.rip e' cids' C' he' hC'
        by_cases hCC : C' = C
        · subst hCC
          have : st'' = st := option_some_inj_alookup hpold hp
          subst this
          refine ⟨{ elemTy := st''.elemTy, table := ainsert st''.table e (f v) },
            by rw [alookup_ainsert_self], ?_⟩
          by_cases hee : e' = e
          · subst hee
            simp
          · simpa [alookup_ainsert_ne _ _ _ _ hee] using hent
        · exact ⟨st'', by rw [alookup_ainsert_ne _ _ _ _ hCC]; exact hpold, hent⟩
      · intro C' st' e'' hp' hent'
        by_cases hCC : C' = C
        · subst hCC
          rw [alookup_ainsert_self] at hp'
          cases hp'
          by_cases hee : e'' = e
          · subst hee
            exact h.pir C' st e'' hp (by simp [hv])
          · simp only [alookup_ainsert_ne _ _ _ _ hee] at hent'
            exact h.pir C' st e'' hp hent'
        · rw [alookup_ainsert_ne _ _ _ _ hCC] at hp'
          exact h.pir C' st' e'' hp' hent'
      · intro C' st' hp'
        by_cases hCC : C' = C
        · subst hCC
          rw [alookup_ainsert_self] at hp'
          cases hp'
          simp [ainsert]
        · rw [alookup_ainsert_ne _ _ _ _ hCC] at hp'
          exact h.npe C' st' hp'
      · exact h.fresh
      · exact h.nodup

theorem replace_inv {s : Registry} (h : RegInv s) (C : ComponentId) (e : Entity) (v : Nat) :
    ∃ s', Registry.replace C e v s = .ok s' ∧ RegInv s' :=
  patch_inv h C e (fun _ => v)

theorem get_ok {s : Registry} (hwt : WellTyped s) (C : ComponentId) (e : Entity) :
    ∃ o, Registry.get C e s = .ok o := by
  cases hp : alookup s.component_pool C with
  | none => exact ⟨none, by simp [Registry.get, Registry.getPool, hp]⟩
  | some st =>
    exact ⟨alookup st.table e, by simp [Registry.get, Registry.getPool, hp, hwt C st hp]⟩

theorem get_all_ok {s : Registry} (hwt : WellTyped s) (Cs : List ComponentId) (e : Entity) :
    ∃ os, Registry.get_all Cs e s = .ok os := by
  induction Cs with
  | nil => exact ⟨[], rfl⟩
  | cons C rest ih =>
    obtain ⟨o, ho⟩ := get_ok hwt C e
    obtain ⟨os, hos⟩ := ih
    exact ⟨o :: os, by simp [Registry.get_all, ho, hos]⟩

theorem addAll_inv {s : Registry} (h : RegInv s) (e : Entity)
    (cs : List (ComponentId × Nat)) :
    ∃ s', Registry.addAll e cs s = .ok s' ∧ RegInv s' := by
  induction cs generalizing s with
  | nil => exact ⟨s, rfl, h⟩
  | cons cv rest ih =>
    obtain ⟨C, v⟩ := cv
    obtain ⟨s1, h1, hinv1⟩ := add_inv h C e v
    obtain ⟨s2, h2, hinv2⟩ := ih hinv1
    exact ⟨s2, by simp [Registry.addAll, h1, h2], hinv2⟩

theorem step_inv {s : Registry} (h : RegInv s) (op : Op) :
    (∃ s', Registry.step op s = .ok s' ∧ RegInv s') ∨
      Registry.step op s = .error .overflow := by
  cases op with
  | create =>
    rcases create_inv h with ⟨e, s', hok, hinv⟩ | herr
    · exact Or.inl ⟨s', by simp [Registry.step, hok], hinv⟩
    · exact Or.inr (by simp [Registry.step, herr])
  | createWith cs =>
    rcases create_inv h with ⟨e, s1, hok, hinv1⟩ | herr
    · obtain ⟨s2, h2, hinv2⟩ := addAll_inv hinv1 e cs
      exact Or.inl ⟨s2, by simp [Registry.step, Registry.create_with, hok, h2], hinv2⟩
    · exact Or.inr (by simp [Registry.step, Registry.create_with, herr])
  | destroy e =>
    obtain ⟨s', h1, h2⟩ := destroy_inv h e
    exact Or.inl ⟨s', h1, h2⟩
  | add C e v =>
    obtain ⟨s', h1, h2⟩ := add_inv h C e v
    exact Or.inl ⟨s', h1, h2⟩
  | remove C e =>
    obtain ⟨s', h1, h2⟩ := remove_inv h C e
    exact Or.inl ⟨s', h1, h2⟩
  | replace C e v =>
    obtain ⟨s', h1, h2⟩ := replace_inv h C e v
    exact Or.inl ⟨s', h1, h2⟩
  | patch C e f =>
    obtain ⟨s', h1, h2⟩ := patch_inv h C e f
    exact Or.inl ⟨s', h1, h2⟩
  | get C e =>
    obtain ⟨o, ho⟩ := get_ok h.wt C e
    exact Or.inl ⟨s, by simp [Registry.step, ho], h⟩
  | getAll Cs e =>
    obtain ⟨os, hos⟩ := get_all_ok h.wt Cs e
    exact Or.inl ⟨s, by simp [Registry.step, hos], h⟩
  | view Cs =>
    exact Or.inl ⟨s, rfl, h⟩

theorem runOps_result (ops : List Op) {s : Registry} (h : RegInv s) :
    (∃ s2, runOps ops s = .ok s2 ∧ RegInv s2) ∨ runOps ops s = .error .overflow := by
  induction ops generalizing s with
  | nil => exact Or.inl ⟨s, rfl, h⟩
  | cons op rest ih =>
    rcases step_inv h op with ⟨s1, hok, hinv⟩ | herr
    · rcases ih hinv with ⟨s2, hok2, hinv2⟩ | herr2
      · exact Or.inl ⟨s2, by simp [runOps, hok, hok2], hinv2⟩
      · exact Or.inr (by simp [runOps, hok, herr2])
    · exact Or.inr (by simp [runOps, herr])

/-- Every reachable registry state satisfies the internal invariants. -/
theorem reachable_inv {s : Registry} (h : Reachable s) : RegInv s := by
  obtain ⟨ops, hrun⟩ := h
  rcases runOps_result ops inv_new with ⟨s2, hok, hinv⟩ | herr
  · have : s2 = s := by
      rw [hrun] at hok
      exact (Except.ok.inj hok).symm
    rwa [this] at hinv
  · rw [hrun] at herr
    cases herr

theorem exceptMap_eq_ok {ε α β : Type} {f : α → β} {x : Except ε α} {b : β}
    (h : Except.map f x = .ok b) : ∃ a, x = .ok a ∧ b = f a := by
  cases x with
  | ok a =>
    refine ⟨a, rfl, ?_⟩
    simp only [exceptMap_ok] at h
    exact (Except.ok.inj h).symm
  | error k => simp at h

theorem exceptBind_eq_ok {ε α β : Type} {f : α → Except ε β} {x : Except ε α} {b : β}
    (h : x.bind f = .ok b) : ∃ a, x = .ok a ∧ f a = .ok b := by
  cases x with
  | ok a => exact ⟨a, rfl, h⟩
  | error k => simp at h

theorem add_next {s s' : Registry} {C : ComponentId} {e : Entity} {v : Nat}
    (h : Registry.add C e v s = .ok s') : s'.next = s.next := by
  unfold Registry.add at h
  split at h
  · cases h
    rfl
  · split at h
    · cases h
      rfl
    · split at h
      · split at h
        · cases h
          rfl
        · exact Except.noConfusion h
      · cases h
        rfl

theorem remove_next {s s' : Registry} {C : ComponentId} {e : Entity}
    (h : Registry.remove C e s = .ok s') : s'.next = s.next := by
  unfold Registry.remove at h
  split at h
  · cases h
    rfl
  · split at h
    · split at h
      · exact Except.noConfusion h
      · cases h
        rfl
    · cases h
      rfl

theorem destroy_next {s s' : Registry} {e : Entity}
    (h : Registry.destroy e s = .ok s') : s'.next = s.next := by
  unfold Registry.destroy at h
  split at h
  · obtain ⟨pools, _, hb⟩ := exceptMap_eq_ok h
    rw [hb]
  · cases h
    rfl

theorem patch_next {s s' : Registry} {C : ComponentId} {e : Entity} {f : Nat → Nat}
    (h : Registry.patch_with C e f s = .ok s') : s'.next = s.next := by
  unfold Registry.patch_with at h
  split at h
  · cases h
    rfl
  · split at h
    · split at h
      · cases h
        rfl
      · cases h
        rfl
    · exact Except.noConfusion h

theorem create_next {s s' : Registry} {e : Entity}
    (h : Registry.create s = .ok (e, s')) : s'.next = s.next + 1 := by
  unfold Registry.create at h
  split at h
  · cases h
    rfl
  · exact Except.noConfusion h

theorem addAll_next {e : Entity} :
    ∀ {cs : List (ComponentId × Nat)} {s s' : Registry},
      Registry.addAll e cs s = .ok s' → s'.next = s.next := by
  intro cs
  induction cs with
  | nil =>
    intro s s' h
    cases h
    rfl
  | cons cv rest ih =>
    intro s s' h
    obtain ⟨C, v⟩ := cv
    unfold Registry.addAll at h
    obtain ⟨s1, h1, h2⟩ := exceptBind_eq_ok h
    rw [ih h2, add_next h1]

theorem step_next_mono {s s' : Registry} {op : Op}
    (h : Registry.step op s = .ok s') : s.next ≤ s'.next := by
  cases op with
  | create =>
    obtain ⟨p, hp, hb⟩ := exceptMap_eq_ok h
    obtain ⟨e, s1⟩ := p
    rw [hb]
    exact Nat.le_of_lt (by rw [create_next hp]; exact Nat.lt_succ_self _)
  | createWith cs =>
    simp only [Registry.step, Registry.create_with] at h
    obtain ⟨p, hp, hb⟩ := exceptMap_eq_ok h
    obtain ⟨p1, hp1, hb1⟩ := exceptBind_eq_ok hp
    obtain ⟨s2, hs2, hb2⟩ := exceptMap_eq_ok hb1
    obtain ⟨e1, s1⟩ := p1
    rw [hb, hb2]
    simp only
    rw [addAll_next hs2, create_next hp1]
    exact Nat.le_succ _
  | destroy e => exact Nat.le_of_eq (destroy_next h).symm
  | add C e v => exact Nat.le_of_eq (add_next h).symm
  | remove C e => exact Nat.le_of_eq (remove_next h).symm
  | replace C e v => exact Nat.le_of_eq (patch_next h).symm
  | patch C e f => exact Nat.le_of_eq (patch_next h).symm
  | get C e =>
    obtain ⟨o, _, hb⟩ := exceptMap_eq_ok h
    rw [hb]
  | getAll Cs e =>
    obtain ⟨os, _, hb⟩ := exceptMap_eq_ok h
    rw [hb]
  | view Cs =>
    cases h
    exact Nat.le_refl _

theorem runOps_next_mono :
    ∀ {ops : List Op} {s s2 : Registry}, runOps ops s = .ok s2 → s.next ≤ s2.next := by
  intro ops
  induction ops with
  | nil =>
    intro s s2 h
    cases h
    exact Nat.le_refl _
  | cons op rest ih =>
    intro s s2 h
    unfold runOps at h
    obtain ⟨s1, h1, h2⟩ := exceptBind_eq_ok h
    exact Nat.le_trans (step_next_mono h1) (ih h2)

/-! ## Frame lemmas: a mutation aimed at one entity leaves the others alone -/

theorem add_frame {s s' : Registry} {C : ComponentId} {e : Entity} {v : Nat}
    (h : Registry.add C e v s = .ok s') (e' : Entity) (hne : e' ≠ e) :
    Registry.exists_ e' s' = Registry.exists_ e' s ∧
      ∀ U, Registry.get U e' s' = Registry.get U e' s := by
  cases he : alookup s.entities e with
  | none =>
    simp only [Registry.add, he] at h
    cases h
    exact ⟨rfl, fun U => rfl⟩
  | some cids =>
    by_cases hC : C ∈ cids
    · simp only [Registry.add, he, if_pos hC] at h
      cases h
      exact ⟨rfl, fun U => rfl⟩
    · cases hp : alookup s.component_pool C with
      | some st =>
        by_cases hty : st.elemTy = C
        · simp only [Registry.add, he, if_neg hC, hp, if_pos hty] at h
          cases h
          constructor
          · simp [Registry.exists_, alookup_ainsert_ne _ _ _ _ hne]
          · intro U
            by_cases hU : U = C
            · subst hU
              simp [Registry.get, Registry.getPool, hp, hty,
                alookup_ainsert_ne _ _ _ _ hne]
            · simp [Registry.get, Registry.getPool, alookup_ainsert_ne _ _ _ _ hU]
        · simp only [Registry.add, he, if_neg hC, hp, if_neg hty] at h
          exact Except.noConfusion h
      | none =>
        simp only [Registry.add, he, if_neg hC, hp] at h
        cases h
        constructor
        · simp [Registry.exists_, alookup_ainsert_ne _ _ _ _ hne]
        · intro U
          by_cases hU : U = C
          · subst hU
            simp [Registry.get, Registry.getPool, hp, alookup, Ne.symm hne]
          · simp [Registry.get, Registry.getPool, alookup_ainsert_ne _ _ _ _ hU]

theorem remove_frame {s s' : Registry} {C : ComponentId} {e : Entity}
    (hwt : WellTyped s) (h : Registry.remove C e s = .ok s') (e' : Entity) (hne : e' ≠ e) :
    Registry.exists_ e' s' = Registry.exists_ e' s ∧
      ∀ U, Registry.get U e' s' = Registry.get U e' s := by
  cases he : alookup s.entities e with
  | none =>
    simp only [Registry.remove, he] at h
    cases h
    exact ⟨rfl, fun U => rfl⟩
  | some cids =>
    by_cases hC : C ∈ cids
    · cases hp : alookup s.component_pool C with
      | none =>
        simp only [Registry.remove, he, if_pos hC, hp] at h
        exact Except.noConfusion h
      | some st =>
        have hty : st.elemTy = C := hwt C st hp
        by_cases hemp : (aremove st.table e).isEmpty = true
        · have hnil : aremove st.table e = [] := List.isEmpty_iff.1 hemp
          simp only [Registry.remove, he, if_pos hC, hp, hemp, if_true] at h
          cases h
          constructor
          · simp [Registry.exists_, alookup_ainsert_ne _ _ _ _ hne]
          · intro U
            by_cases hU : U = C
            · subst hU
              have hmiss : alookup st.table e' = none :=
                alookup_eq_none_of_aremove_eq_nil hnil hne
              simp [Registry.get, Registry.getPool, hp, hty, hmiss]
            · simp [Registry.get, Registry.getPool, alookup_aremove_ne _ _ _ hU]
        · simp only [Registry.remove, he, if_pos hC, hp, hemp, if_false] at h
          cases h
          constructor
          · simp [Registry.exists_, alookup_ainsert_ne _ _ _ _ hne]
          · intro U
            by_cases hU : U = C
            · subst hU
              simp [Registry.get, Registry.getPool, hp, hty,
                alookup_aremove_ne _ _ _ hne]
            · simp [Registry.get, Registry.getPool, alookup_ainsert_ne _ _ _ _ hU]
    · simp only [Registry.remove, he, if_neg hC] at h
      cases h
      exact ⟨rfl, fun U => rfl⟩

theorem patch_frame {s s' : Registry} {C : ComponentId} {e : Entity} {f : Nat → Nat}
    (h : Registry.patch_with C e f s = .ok s') (e' : Entity) (hne : e' ≠ e) :
    Registry.exists_ e' s' = Registry.exists_ e' s ∧
      ∀ U, Registry.get U e' s' = Registry.get U e' s := by
  cases hp : alookup s.component_pool C with
  | none =>
    simp only [Registry.patch_with, hp] at h
    cases h
    exact ⟨rfl, fun U => rfl⟩
  | some st =>
    by_cases hty : st.elemTy = C
    · cases hv : alookup st.table e with
      | none =>
        simp only [Registry.patch_with, hp, if_pos hty, hv] at h
        cases h
        exact ⟨rfl, fun U => rfl⟩
      | some v =>
        simp only [Registry.patch_with, hp, if_pos hty, hv] at h
        cases h
        constructor
        · rfl
        · intro U
          by_cases hU : U = C
          · subst hU
            simp [Registry.get, Registry.getPool, hp, hty,
              alookup_ainsert_ne _ _ _ _ hne]
          · simp [Registry.get, Registry.getPool, alookup_ainsert_ne _ _ _ _ hU]
    · simp only [Registry.patch_with, hp, if_neg hty] at h
      exact Except.noConfusion h

theorem destroyPools_frame {e : Entity} :
    ∀ {cids : List ComponentId} {pools pools' : List (ComponentId × Storage)},
      (∀ C st, alookup pools C = some st → st.elemTy = C) →
      Registry.destroyPools e cids pools = .ok pools' →
      ∀ e', e' ≠ e → ∀ U, Registry.getPool pools' U e' = Registry.getPool pools U e' := by
  intro cids
  induction cids with
  | nil =>
    intro pools pools' _ h e' hne U
    cases h
    rfl
  | cons C0 rest ih =>
    intro pools pools' hwt h e' hne U
    cases hp0 : alookup pools C0 with
    | none =>
      rw [Registry.destroyPools, hp0] at h
      exact Except.noConfusion h
    | some st0 =>
      have hty0 : st0.elemTy = C0 := hwt C0 st0 hp0
      rw [Registry.destroyPools, hp0] at h
      set pools1 := if (aremove st0.table e).isEmpty then aremove pools C0
        else ainsert pools C0 { elemTy := st0.elemTy, table := aremove st0.table e }
        with hpools1
      have hwt1 : ∀ C st, alookup pools1 C = some st → st.elemTy = C := by
        intro C st hp
        rw [hpools1] at hp
        by_cases hemp : (aremove st0.table e).isEmpty = true
        · rw [if_pos hemp] at hp
          by_cases hCC : C = C0
          · subst hCC
            rw [alookup_aremove_self] at hp
            cases hp
          · rw [alookup_aremove_ne _ _ _ hCC] at hp
            exact hwt C st hp
        · rw [if_neg hemp] at hp
          by_cases hCC : C = C0
          · subst hCC
            rw [alookup_ainsert_self] at hp
            cases hp
            exact hty0
          · rw [alookup_ainsert_ne _ _ _ _ hCC] at hp
            exact hwt C st hp
      have hrec := ih hwt1 h e' hne U
      rw [hrec]
      rw [hpools1]
      by_cases hemp : (aremove st0.table e).isEmpty = true
      · rw [if_pos hemp]
        by_cases hU : U = C0
        · subst hU
          have hnil : aremove st0.table e = [] := List.isEmpty_iff.1 hemp
          have hmiss : alookup st0.table e' = none :=
            alookup_eq_none_of_aremove_eq_nil hnil hne
          simp [Registry.getPool, hp0, hty0, hmiss]
        · simp [Registry.getPool, alookup_aremove_ne _ _ _ hU]
      · rw [if_neg hemp]
        by_cases hU : U = C0
        · subst hU
          simp [Registry.getPool, hp0, hty0, alookup_aremove_ne _ _ _ hne]
        · simp [Registry.getPool, alookup_ainsert_ne _ _ _ _ hU]

theorem destroy_frame {s s' : Registry} {e : Entity}
    (hwt : WellTyped s) (h : Registry.destroy e s = .ok s') (e' : Entity) (hne : e' ≠ e) :
    Registry.exists_ e' s' = Registry.exists_ e' s ∧
      ∀ U, Registry.get U e' s' = Registry.get U e' s := by
  cases he : alookup s.entities e with
  | none =>
    simp only [Registry.destroy, he] at h
    cases h
    constructor
    · simp [Registry.exists_, alookup_aremove_ne _ _ _ hne]
    · intro U
      rfl
  | some cids =>
    simp only [Registry.destroy, he] at h
    obtain ⟨pools', hrun, hb⟩ := exceptMap_eq_ok h
    subst hb
    constructor
    · simp [Registry.exists_, alookup_aremove_ne _ _ _ hne]
    · intro U
      exact destroyPools_frame hwt hrun e' hne U

/-! ## View correctness lemmas -/

theorem get_some_iff (s : Registry) (C : ComponentId) (e : Entity) :
    (∃ v, Registry.get C e s = .ok (some v)) ↔
      ((downcastPool s C).bind (fun st => alookup st.table e)).isSome = true := by
  cases hp : alookup s.component_pool C with
  | none => simp [Registry.get, Registry.getPool, downcastPool, hp]
  | some st =>
    by_cases hty : st.elemTy = C
    · cases hv : alookup st.table e with
      | none => simp [Registry.get, Registry.getPool, downcastPool, hp, hty, hv]
      | some v => simp [Registry.get, Registry.getPool, downcastPool, hp, hty, hv]
    · simp [Registry.get, Registry.getPool, downcastPool, hp, hty]

theorem viewRow_isSome_iff (s : Registry) (Cs : List ComponentId) (e : Entity) :
    (viewRow s Cs e).isSome = true ↔
      ∀ C ∈ Cs, ((downcastPool s C).bind (fun st => alookup st.table e)).isSome = true := by
  unfold viewRow
  by_cases hall :
      (Cs.map (fun C => (downcastPool s C).bind (fun st => alookup st.table e))).all
        Option.isSome = true
  · simp only [hall, if_true, Option.isSome_some, true_iff]
    intro C hC
    exact List.all_eq_true.1 hall _ (List.mem_map_of_mem _ hC)
  · rw [Bool.not_eq_true] at hall
    simp only [hall, Bool.false_eq_true, if_false, Option.isSome_none, false_iff]
    intro hcontra
    have htrue : (Cs.map
        (fun C => (downcastPool s C).bind (fun st => alookup st.table e))).all
          Option.isSome = true := by
      rw [List.all_eq_true]
      intro x hx
      obtain ⟨C, hC, rfl⟩ := List.mem_map.1 hx
      exact hcontra C hC
    rw [hall] at htrue
    cases htrue

theorem view_empty_of_missing (s : Registry) (Cs : List ComponentId) (C : ComponentId)
    (hmem : C ∈ Cs) (hp : alookup s.component_pool C = none) :
    Registry.view_entities Cs s = [] := by
  unfold Registry.view_entities
  have hany : (Cs.map (downcastPool s)).any Option.isNone = true := by
    rw [List.any_eq_true]
    exact ⟨downcastPool s C, List.mem_map_of_mem _ hmem, by simp [downcastPool, hp]⟩
  rw [if_pos hany]

theorem view_mem_iff (s : Registry) (Cs : List ComponentId) (e : Entity) (hCs : Cs ≠ []) :
    e ∈ (Registry.view_entities Cs s).map Prod.fst ↔
      ∀ C ∈ Cs, ∃ v, Registry.get C e s = .ok (some v) := by
  constructor
  · intro hmem
    by_cases hany : (Cs.map (downcastPool s)).any Option.isNone = true
    · rw [Registry.view_entities.eq_def, if_pos hany] at hmem
      simp at hmem
    · have hanyF : (Cs.map (downcastPool s)).any Option.isNone = false :=
        Bool.not_eq_true _ ▸ hany
      cases Cs with
      | nil => exact absurd rfl hCs
      | cons C0 rest =>
        cases hd0 : downcastPool s C0 with
        | none =>
          exfalso
          apply hany
          rw [List.any_eq_true]
          exact ⟨downcastPool s C0, List.mem_map_of_mem _ (List.mem_cons_self _ _),
            by simp [hd0]⟩
        | some st0 =>
          simp only [Registry.view_entities, hanyF, Bool.false_eq_true, if_false,
            hd0] at hmem
          obtain ⟨x, hx, hfst⟩ := List.mem_map.1 hmem
          obtain ⟨p, hptab, hfp⟩ := List.mem_filterMap.1 hx
          obtain ⟨row, hrow, hxeq⟩ := Option.map_eq_some'.1 hfp
          have hpe : p.1 = e := by
            rw [← hxeq] at hfst
            exact hfst
          rw [hpe] at hrow
          have hsome : (viewRow s (C0 :: rest) e).isSome = true := by
            rw [hrow]
            rfl
          intro C hC
          rw [get_some_iff]
          exact (viewRow_isSome_iff s (C0 :: rest) e).1 hsome C hC
  · intro hget
    have hbind : ∀ C ∈ Cs,
        ((downcastPool s C).bind (fun st => alookup st.table e)).isSome = true := by
      intro C hC
      rw [← get_some_iff]
      exact hget C hC
    have hany : ¬ (Cs.map (downcastPool s)).any Option.isNone = true := by
      intro hany
      rw [List.any_eq_true] at hany
      obtain ⟨x, hx, hnone⟩ := hany
      obtain ⟨C, hC, rfl⟩ := List.mem_map.1 hx
      have := hbind C hC
      cases hd : downcastPool s C with
      | none =>
        rw [hd] at this
        simp at this
      | some st =>
        rw [hd] at hnone
        simp at hnone
    have hanyF : (Cs.map (downcastPool s)).any Option.isNone = false :=
      Bool.not_eq_true _ ▸ hany
    cases Cs with
    | nil => exact absurd rfl hCs
    | cons C0 rest =>
      have h0 := hbind C0 (List.mem_cons_self _ _)
      cases hd0 : downcastPool s C0 with
      | none =>
        rw [hd0] at h0
        simp at h0
      | some st0 =>
        rw [hd0] at h0
        simp only [Option.some_bind] at h0
        obtain ⟨v0, hv0⟩ := Option.isSome_iff_exists.1 h0
        have hrowS : (viewRow s (C0 :: rest) e).isSome = true :=
          (viewRow_isSome_iff s (C0 :: rest) e).2 hbind
        obtain ⟨row, hrow⟩ := Option.isSome_iff_exists.1 hrowS
        simp only [Registry.view_entities, hanyF, Bool.false_eq_true, if_false, hd0]
        rw [List.mem_map]
        refine ⟨(e, row), ?_, rfl⟩
        rw [List.mem_filterMap]
        refine ⟨(e, v0), alookup_mem hv0, ?_⟩
        simp [hrow]

/-! ## Observations -/

/-- "Pool(T) contains an entry for E": the pool for `C` is in the directory
and its table has a value for `e`. -/
def poolHasEntry (s : Registry) (C : ComponentId) (e : Entity) : Bool :=
  match alookup s.component_pool C with
  | some st => (alookup st.table e).isSome
  | none => false

/-- Observational frame at one entity: its liveness and every `get` are the
same in both states. -/
def unchangedFor (s s' : Registry) (e' : Entity) : Prop :=
  Registry.exists_ e' s' = Registry.exists_ e' s ∧
    ∀ U, Registry.get U e' s' = Registry.get U e' s

/-! ## Behavioral lemmas for the claims -/

theorem destroy_nonexistent {s : Registry} {e : Entity}
    (he : alookup s.entities e = none) : Registry.destroy e s = .ok s := by
  simp [Registry.destroy, he, aremove_eq_self he]

theorem destroy_cascade_core {s : Registry} (hinv : RegInv s) {e : Entity}
    {cids : List ComponentId} (he : alookup s.entities e = some cids) :
    ∃ s', Registry.destroy e s = .ok s' ∧ Registry.exists_ e s' = false ∧
      ∀ C ∈ cids, Registry.get C e s' = .ok none := by
  have hav : ∀ C ∈ cids, ∃ st, alookup s.component_pool C = some st := by
    intro C hmem
    obtain ⟨st, hp, _⟩ := hinv.rip e cids C he hmem
    exact ⟨st, hp⟩
  obtain ⟨pools', hrun, h1, _⟩ :=
    destroyPools_spec e cids s.component_pool (hinv.nodup e cids he) hav
  refine ⟨{ s with component_pool := pools', entities := aremove s.entities e },
    by simp [Registry.destroy, he, hrun], ?_, ?_⟩
  · simp [Registry.exists_]
  · intro C hmem
    obtain ⟨st, hp⟩ := hav C hmem
    have hlook := h1 C st hmem hp
    by_cases hemp : (aremove st.table e).isEmpty = true
    · rw [if_pos hemp] at hlook
      simp [Registry.get, Registry.getPool, hlook]
    · rw [if_neg hemp] at hlook
      have hty : st.elemTy = C := hinv.wt C st hp
      simp [Registry.get, Registry.getPool, hlook, hty]

theorem add_fresh {s : Registry} (hinv : RegInv s) {C : ComponentId} {e : Entity}
    {cids : List ComponentId} (he : alookup s.entities e = some cids)
    (hnone : Registry.get C e s = .ok none) (v : Nat) :
    ∃ s1, Registry.add C e v s = .ok s1 ∧
      alookup s1.entities e = some (C :: cids) ∧
      Registry.get C e s1 = .ok (some v) := by
  have hC : C ∉ cids := by
    intro hmem
    obtain ⟨st, hp, hent⟩ := hinv.rip e cids C he hmem
    have hty : st.elemTy = C := hinv.wt C st hp
    simp only [Registry.get, Registry.getPool, hp] at hnone
    rw [if_pos hty] at hnone
    have := Except.ok.inj hnone
    rw [this] at hent
    simp at hent
  cases hp : alookup s.component_pool C with
  | none =>
    refine ⟨{ s with
        entities := ainsert s.entities e (C :: cids),
        component_pool := ainsert s.component_pool C { elemTy := C, table := [(e, v)] } },
      by simp [Registry.add, he, hC, hp], by rw [alookup_ainsert_self], ?_⟩
    simp [Registry.get, Registry.getPool, alookup]
  | some st =>
    have hty : st.elemTy = C := hinv.wt C st hp
    refine ⟨{ s with
        entities := ainsert s.entities e (C :: cids),
        component_pool :=
          ainsert s.component_pool C { elemTy := st.elemTy, table := ainsert st.table e v } },
      by simp [Registry.add, he, hC, hp, hty], by rw [alookup_ainsert_self], ?_⟩
    simp [Registry.get, Registry.getPool, hty]

theorem add_owned_noop {s : Registry} {C : ComponentId} {e : Entity}
    {cids : List ComponentId} (he : alookup s.entities e = some cids) (hC : C ∈ cids)
    (v : Nat) : Registry.add C e v s = .ok s := by
  simp [Registry.add, he, hC]

theorem patch_present {s : Registry} {C : ComponentId} {e : Entity} {w : Nat}
    (hw : Registry.get C e s = .ok (some w)) (f : Nat → Nat) :
    ∃ s', Registry.patch_with C e f s = .ok s' ∧
      Registry.get C e s' = .ok (some (f w)) := by
  cases hp : alookup s.component_pool C with
  | none =>
    rw [Registry.get, Registry.getPool, hp] at hw
    cases Except.ok.inj hw
  | some st =>
    by_cases hty : st.elemTy = C
    · simp only [Registry.get, Registry.getPool, hp] at hw
      rw [if_pos hty] at hw
      have hv : alookup st.table e = some w := Except.ok.inj hw
      refine ⟨{ s with
          component_pool :=
            ainsert s.component_pool C
              { elemTy := st.elemTy, table := ainsert st.table e (f w) } },
        by simp [Registry.patch_with, hp, hty, hv], ?_⟩
      simp [Registry.get, Registry.getPool, hty]
    · simp only [Registry.get, Registry.getPool, hp] at hw
      rw [if_neg hty] at hw
      cases hw

theorem patch_absent {s : Registry} {C : ComponentId} {e : Entity}
    (hw : Registry.get C e s = .ok none) (f : Nat → Nat) :
    Registry.patch_with C e f s = .ok s := by
  cases hp : alookup s.component_pool C with
  | none => simp [Registry.patch_with, hp]
  | some st =>
    by_cases hty : st.elemTy = C
    · simp only [Registry.get, Registry.getPool, hp] at hw
      rw [if_pos hty] at hw
      have hv : alookup st.table e = none := Except.ok.inj hw
      simp [Registry.patch_with, hp, hty, hv]
    · simp only [Registry.get, Registry.getPool, hp] at hw
      rw [if_neg hty] at hw
      cases hw

theorem addAll_eq_runOps (e : Entity) :
    ∀ (cs : List (ComponentId × Nat)) (s : Registry),
      Registry.addAll e cs s = runOps (cs.map (fun cv => Op.add cv.1 e cv.2)) s := by
  intro cs
  induction cs with
  | nil => intro s; rfl
  | cons cv rest ih =>
    intro s
    obtain ⟨C, v⟩ := cv
    show (Registry.add C e v s).bind (Registry.addAll e rest) =
      (Registry.step (Op.add C e v) s).bind (runOps (rest.map (fun cv => Op.add cv.1 e cv.2)))
    cases h : Registry.add C e v s with
    | ok s1 =>
      show (Except.ok s1).bind (Registry.addAll e rest) =
        (Registry.step (Op.add C e v) s).bind (runOps (rest.map (fun cv => Op.add cv.1 e cv.2)))
      rw [show Registry.step (Op.add C e v) s = .ok s1 from h]
      simp [ih s1]
    | error k =>
      rw [show Registry.step (Op.add C e v) s = .error k from h]
      simp

/-! ## Concrete registries used by the witnesses -/

/-- The registry after `create()` (entity 1) and `add(1, component 7 = 5)`. -/
def cexReg : Registry :=
  { next := 2, entities := [(1, [7])],
    component_pool := [(7, { elemTy := 7, table := [(1, 5)] })] }

/-- The registry after a single `create()` (entity 1, no components). -/
def regC : Registry := { next := 2, entities := [(1, [])], component_pool := [] }

/-- Two entities (1 and 2), both holding component type 7. -/
def reg2 : Registry :=
  { next := 3, entities := [(2, [7]), (1, [7])],
    component_pool := [(7, { elemTy := 7, table := [(2, 6), (1, 5)] })] }

/-- `reg2` after `destroy(1)`. -/
def reg2d : Registry :=
  { next := 3, entities := [(2, [7])],
    component_pool := [(7, { elemTy := 7, table := [(2, 6)] })] }

/-! ## The claims -/

/-- C1: after every public registry operation — i.e. in every reachable
registry state — for every entity present in the Entity Table and every
component type `C`, `C` is in the entity's record if and only if the pool
for `C` contains an entry keyed by that entity. -/
theorem record_pool_consistency (s : Registry) (h : Reachable s) (e : Entity)
    (cids : List ComponentId) (he : alookup s.entities e = some cids) (C : ComponentId) :
    C ∈ cids ↔ poolHasEntry s C e = true := by
  have hinv := reachable_inv h
  constructor
  · intro hC
    obtain ⟨st, hp, hent⟩ := hinv.rip e cids C he hC
    simp [poolHasEntry, hp, hent]
  · intro hpe
    unfold poolHasEntry at hpe
    cases hp : alookup s.component_pool C with
    | none =>
      rw [hp] at hpe
      cases hpe
    | some st =>
      rw [hp] at hpe
      obtain ⟨cids', he', hmem⟩ := hinv.pir C st e hp hpe
      have hcc : cids' = cids := option_some_inj_alookup he' he
      rwa [hcc] at hmem

theorem record_pool_consistency_witness :
    (7 : ComponentId) ∈ ([7] : List ComponentId) ↔ poolHasEntry cexReg 7 1 = true :=
  record_pool_consistency cexReg ⟨[Op.create, Op.add 7 1 5], rfl⟩ 1 [7] rfl 7

/-- C2: in every reachable registry state, a pool for a component type is
present in the directory if and only if it holds at least one entry: pools
are created by the first successful add and dropped with their last entry. -/
theorem pool_gc (s : Registry) (h : Reachable s) (C : ComponentId) :
    (alookup s.component_pool C).isSome = true ↔ ∃ e, poolHasEntry s C e = true := by
  have hinv := reachable_inv h
  constructor
  · intro hs
    obtain ⟨st, hp⟩ := Option.isSome_iff_exists.1 hs
    obtain ⟨a, ha⟩ := exists_alookup_isSome_of_ne_nil (hinv.npe C st hp)
    exact ⟨a, by simp [poolHasEntry, hp, ha]⟩
  · rintro ⟨e, hpe⟩
    unfold poolHasEntry at hpe
    cases hp : alookup s.component_pool C with
    | none =>
      rw [hp] at hpe
      cases hpe
    | some st => simp [hp]

theorem pool_gc_witness :
    (alookup cexReg.component_pool 7).isSome = true ↔
      ∃ e, poolHasEntry cexReg 7 e = true :=
  pool_gc cexReg ⟨[Op.create, Op.add 7 1 5], rfl⟩ 7

/-- C3: for every registry state, the view for a nonempty list of component
types contains an entity exactly when every requested `get` is non-`None`;
and if any requested type has no pool in the directory, the view is empty. -/
theorem view_matches_gets (s : Registry) (Cs : List ComponentId) (hCs : Cs ≠ [])
    (e : Entity) :
    (e ∈ (Registry.view_entities Cs s).map Prod.fst ↔
      ∀ C ∈ Cs, ∃ v, Registry.get C e s = .ok (some v)) ∧
    (∀ C ∈ Cs, alookup s.component_pool C = none →
      Registry.view_entities Cs s = []) :=
  ⟨view_mem_iff s Cs e hCs, fun C hC hp => view_empty_of_missing s Cs C hC hp⟩

theorem view_matches_gets_witness :
    ((1 : Entity) ∈ (Registry.view_entities [7] cexReg).map Prod.fst ↔
      ∀ C ∈ ([7] : List ComponentId), ∃ v, Registry.get C 1 cexReg = .ok (some v)) ∧
    (∀ C ∈ ([7] : List ComponentId), alookup cexReg.component_pool C = none →
      Registry.view_entities [7] cexReg = []) :=
  view_matches_gets cexReg [7] (by simp) 1

/-- C4 counterexample: in the reachable registry `cexReg`, entity 1 exists
and already owns component type 7 with value 5; `add(1, 1)` then `add(1, 2)`
are both silent no-ops, and `get` afterwards yields the pre-existing 5 —
not the claim's `v1 = 1`. -/
theorem add_idem_cex :
    runOps [Op.create, Op.add 7 1 5] Registry.new = .ok cexReg ∧
    Registry.exists_ 1 cexReg = true ∧
    Registry.add 7 1 1 cexReg = .ok cexReg ∧
    Registry.add 7 1 2 cexReg = .ok cexReg ∧
    Registry.get 7 1 cexReg = .ok (some 5) ∧
    Registry.get 7 1 cexReg ≠ .ok (some 1) := by
  refine ⟨rfl, rfl, rfl, rfl, rfl, ?_⟩
  intro hc
  exact absurd (Option.some.inj (Except.ok.inj hc)) (by decide)

/-- C4 (amended): for every reachable state, an existing entity that does
not yet own component type `C`, `add v1` stores `v1`; the second `add v2` is
a silent no-op returning the state unchanged, so `get` still yields `v1`. -/
theorem add_idem_amended (s : Registry) (h : Reachable s) (C : ComponentId) (e : Entity)
    (v1 v2 : Nat) (hex : Registry.exists_ e s = true)
    (hnone : Registry.get C e s = .ok none) :
    ∃ s1, Registry.add C e v1 s = .ok s1 ∧ Registry.add C e v2 s1 = .ok s1 ∧
      Registry.get C e s1 = .ok (some v1) := by
  have hinv := reachable_inv h
  obtain ⟨cids, he⟩ := Option.isSome_iff_exists.1 hex
  obtain ⟨s1, h1, hrec1, hget1⟩ := add_fresh hinv he hnone v1
  exact ⟨s1, h1, add_owned_noop hrec1 (List.mem_cons_self _ _) v2, hget1⟩

theorem add_idem_amended_witness :
    ∃ s1, Registry.add 7 1 5 regC = .ok s1 ∧ Registry.add 7 1 9 s1 = .ok s1 ∧
      Registry.get 7 1 s1 = .ok (some 5) :=
  add_idem_amended regC ⟨[Op.create], rfl⟩ 7 1 5 9 rfl rfl

/-- C5: `replace` overwrites the stored value exactly when the entity owns
the component and is a state-preserving no-op otherwise; the patch handle
applies the mutation function to the stored value exactly when the
component is present and is a no-op otherwise. -/
theorem replace_patch_only_on_presence (s : Registry) (C : ComponentId) (e : Entity)
    (f : Nat → Nat) (v : Nat) :
    (∀ w, Registry.get C e s = .ok (some w) →
      (∃ s', Registry.patch_with C e f s = .ok s' ∧
        Registry.get C e s' = .ok (some (f w))) ∧
      (∃ s', Registry.replace C e v s = .ok s' ∧
        Registry.get C e s' = .ok (some v))) ∧
    (Registry.get C e s = .ok none →
      Registry.patch_with C e f s = .ok s ∧ Registry.replace C e v s = .ok s) := by
  constructor
  · intro w hw
    refine ⟨patch_present hw f, ?_⟩
    obtain ⟨s', h1, h2⟩ := patch_present hw (fun _ => v)
    exact ⟨s', h1, h2⟩
  · intro hw
    exact ⟨patch_absent hw f, patch_absent hw (fun _ => v)⟩

/-- C6: destroying an existing entity removes it from the table and every
pool of its record, so `exists` turns false and every previously owned
component reads `None`; destroying a non-existent entity returns the state
unchanged. -/
theorem destroy_cascade (s : Registry) (h : Reachable s) (e : Entity) :
    (∀ cids, alookup s.entities e = some cids →
      ∃ s', Registry.destroy e s = .ok s' ∧ Registry.exists_ e s' = false ∧
        ∀ C ∈ cids, Registry.get C e s' = .ok none) ∧
    (alookup s.entities e = none → Registry.destroy e s = .ok s) :=
  ⟨fun _cids he => destroy_cascade_core (reachable_inv h) he,
    fun he => destroy_nonexistent he⟩

theorem destroy_cascade_witness :
    ∃ s', Registry.destroy 1 cexReg = .ok s' ∧ Registry.exists_ 1 s' = false ∧
      ∀ C ∈ ([7] : List ComponentId), Registry.get C 1 s' = .ok none :=
  (destroy_cascade cexReg ⟨[Op.create, Op.add 7 1 5], rfl⟩ 1).1 [7] rfl

/-- C7: no sequence of public operations from a fresh registry can reach a
downcast failure or a missing-pool unwrap: the only possible panic is the
id-counter overflow, and in every reachable state the view path's downcast
of any pool present in the directory succeeds. -/
theorem no_internal_panics (ops : List Op) :
    ((∃ s, runOps ops Registry.new = .ok s) ∨
      runOps ops Registry.new = .error .overflow) ∧
    (∀ s, runOps ops Registry.new = .ok s →
      ∀ C st, alookup s.component_pool C = some st → downcastPool s C = some st) := by
  constructor
  · rcases runOps_result ops inv_new with ⟨s2, hok, _⟩ | herr
    · exact Or.inl ⟨s2, hok⟩
    · exact Or.inr herr
  · intro s hs C st hp
    have hinv : RegInv s := reachable_inv ⟨ops, hs⟩
    simp [downcastPool, hp, hinv.wt C st hp]

/-- C8: the null entity 0 never exists; `create` issues exactly the current
counter value (nonzero, not previously live) and bumps the counter by one;
and the counter never decreases across any operation sequence — so issued
ids are strictly increasing and never reused. -/
theorem entity_id_allocation (s : Registry) (h : Reachable s) :
    Registry.exists_ 0 s = false ∧
    (∀ e s', Registry.create s = .ok (e, s') →
      e = s.next ∧ e ≠ 0 ∧ Registry.exists_ e s = false ∧ s'.next = e + 1) ∧
    (∀ ops s2, runOps ops s = .ok s2 → s.next ≤ s2.next) := by
  have hinv := reachable_inv h
  refine ⟨?_, ?_, fun ops s2 hr => runOps_next_mono hr⟩
  · by_cases h0 : (alookup s.entities 0).isSome = true
    · obtain ⟨h1, _⟩ := hinv.fresh.2 0 h0
      exact absurd h1 (by decide)
    · unfold Registry.exists_
      exact Bool.not_eq_true _ ▸ h0
  · intro e s' hc
    unfold Registry.create at hc
    split at hc
    · cases hc
      refine ⟨rfl, ?_, ?_, rfl⟩
      · have h1 := hinv.fresh.1
        intro h0
        rw [h0] at h1
        exact absurd h1 (by decide)
      · by_cases hex : (alookup s.entities s.next).isSome = true
        · obtain ⟨_, hlt⟩ := hinv.fresh.2 _ hex
          exact absurd hlt (lt_irrefl _)
        · unfold Registry.exists_
          exact Bool.not_eq_true _ ▸ hex
    · exact Except.noConfusion hc

theorem entity_id_allocation_witness : Registry.exists_ 0 cexReg = false :=
  (entity_id_allocation cexReg ⟨[Op.create, Op.add 7 1 5], rfl⟩).1

/-- C9: `create_with` returns exactly the entity and registry state produced
by a `create` followed by one public `add` per supplied component, applied
in argument order. -/
theorem create_with_is_create_then_adds (cs : List (ComponentId × Nat)) (s : Registry) :
    Registry.create_with cs s =
      (Registry.create s).bind (fun p =>
        (runOps (cs.map (fun cv => Op.add cv.1 p.1 cv.2)) p.2).map
          (fun s2 => (p.1, s2))) := by
  unfold Registry.create_with
  cases hc : Registry.create s with
  | ok p => simp [addAll_eq_runOps p.1 cs p.2]
  | error k => rfl

/-- C10: every mutating operation aimed at entity `e` — add, remove,
replace, patch, destroy — leaves every other entity's liveness and every
`get` on it unchanged, even when the entities share pools. -/
theorem mutators_frame (s s' : Registry) (e e' : Entity) (h : Reachable s)
    (hne : e' ≠ e) :
    (∀ C v, Registry.add C e v s = .ok s' → unchangedFor s s' e') ∧
    (∀ C, Registry.remove C e s = .ok s' → unchangedFor s s' e') ∧
    (∀ C v, Registry.replace C e v s = .ok s' → unchangedFor s s' e') ∧
    (∀ C f, Registry.patch_with C e f s = .ok s' → unchangedFor s s' e') ∧
    (Registry.destroy e s = .ok s' → unchangedFor s s' e') := by
  have hwt := (reachable_inv h).wt
  exact ⟨fun C v hop => add_frame hop e' hne,
    fun C hop => remove_frame hwt hop e' hne,
    fun C v hop => patch_frame hop e' hne,
    fun C f hop => patch_frame hop e' hne,
    fun hop => destroy_frame hwt hop e' hne⟩

theorem mutators_frame_witness : unchangedFor reg2 reg2d 2 :=
  (mutators_frame reg2 reg2d 1 2
    ⟨[Op.create, Op.create, Op.add 7 1 5, Op.add 7 2 6], rfl⟩ (by decide)).2.2.2.2 rfl
